import Mathlib

/-!
Shallow embedding of the Item Registry from `src/server-crud.js`.

The registry state is the module-level JS array `items`, modelled as a
`List Item`. Request-body fields are modelled as `Option String`:
`none` stands for an absent (or `null`/`undefined`) JSON field, `some s`
for a present string value (possibly empty). Path ids arrive through
`parseInt`, modelled as `Int`. Each HTTP handler becomes a pure function
returning the response (`Except ErrResp _`) together with the new state.
-/

deriving instance DecidableEq for Except

/-- One managed resource record: `{ id, name, description }`. -/
structure Item where
  id : Int
  name : String
  description : String
deriving DecidableEq, Repr

/-- An error response: HTTP status plus the `error` field of the JSON body. -/
structure ErrResp where
  status : Nat
  error : String
deriving DecidableEq, Repr

/-- `res.status(404).json({ error: "Item not found" })`. -/
def notFoundResp : ErrResp := ⟨404, "Item not found"⟩

/-- `res.status(400).json({ error: "Name is required" })`. -/
def nameRequiredResp : ErrResp := ⟨400, "Name is required"⟩

/-- The seeded initial store (`let items = [...]`, lines 11–14). -/
def initialItems : List Item :=
  [⟨1, "Item 1", "First item"⟩, ⟨2, "Item 2", "Second item"⟩]

/-- `GET /items/:id` (lines 107–111): `items.find((i) => i.id === parseInt(req.params.id))`,
404 when absent. -/
def getById (items : List Item) (id : Int) : Except ErrResp Item :=
  match items.find? (fun i => i.id == id) with
  | none => Except.error notFoundResp
  | some i => Except.ok i

/-- The new-id computation of `POST /items` (line 138):
`items.length ? items[items.length - 1].id + 1 : 1`. -/
def newId (items : List Item) : Int :=
  match items.getLast? with
  | some l => l.id + 1
  | none => 1

/-- JS `description || ""` (line 140): any falsy value (absent field or the
empty string) becomes `""`. -/
def jsOrEmpty (d : Option String) : String :=
  match d with
  | none => ""
  | some s => if s = "" then "" else s

/-- JS `!name` (line 135) for an optional string field: truthy exactly when
present and non-empty. -/
def jsTruthy (s : Option String) : Bool :=
  match s with
  | none => false
  | some v => v != ""

/-- `POST /items` (lines 133–144): reject a falsy `name` with 400, otherwise
append `{ id: newId, name, description: description || "" }` and return it. -/
def createItem (items : List Item) (name : Option String) (description : Option String) :
    Except ErrResp Item × List Item :=
  if jsTruthy name then
    let newItem : Item := ⟨newId items, name.getD "", jsOrEmpty description⟩
    (Except.ok newItem, items ++ [newItem])
  else
    (Except.error nameRequiredResp, items)

/-- `PUT /items/:id` (lines 171–182): `findIndex` by id (first match), 404 when
absent; otherwise replace the matched element by
`{ ...old, name: name ?? old.name, description: description ?? old.description }`
(so the id is kept, and only non-nullish supplied fields change) and return it.
The recursion mirrors the linear scan plus in-place write. -/
def updateItem : List Item → Int → Option String → Option String →
    Except ErrResp Item × List Item
  | [], _, _, _ => (Except.error notFoundResp, [])
  | i :: rest, id, name, description =>
    if i.id == id then
      (Except.ok ⟨i.id, name.getD i.name, description.getD i.description⟩,
       ⟨i.id, name.getD i.name, description.getD i.description⟩ :: rest)
    else
      ((updateItem rest id name description).1,
       i :: (updateItem rest id name description).2)

/-- The success body of `DELETE /items/:id` (line 208):
`{ message: "Item deleted", deletedItem }` where `deletedItem` is the ARRAY
returned by `items.splice(itemIndex, 1)`. -/
structure DeleteResp where
  message : String
  deletedItem : List Item
deriving DecidableEq, Repr

/-- `DELETE /items/:id` (lines 203–209): `findIndex` by id (first match), 404
when absent; otherwise `splice` out that one element and answer with the
spliced-out array. -/
def deleteItem : List Item → Int → Except ErrResp DeleteResp × List Item
  | [], _ => (Except.error notFoundResp, [])
  | i :: rest, id =>
    if i.id == id then
      (Except.ok ⟨"Item deleted", [i]⟩, rest)
    else
      ((deleteItem rest id).1, i :: (deleteItem rest id).2)

/-- A JSON value, as serialized by `res.json`. -/
inductive JVal where
  | jnum : Int → JVal
  | jstr : String → JVal
  | jarr : List JVal → JVal
  | jobj : List (String × JVal) → JVal

/-- The JSON object an `Item` serializes to. -/
def Item.toJson (it : Item) : JVal :=
  JVal.jobj [("id", JVal.jnum it.id), ("name", JVal.jstr it.name),
             ("description", JVal.jstr it.description)]

/-- The JSON body of a successful delete: `deletedItem` serializes as an array
of items, because `splice` returns an array. -/
def DeleteResp.toJson (r : DeleteResp) : JVal :=
  JVal.jobj [("message", JVal.jstr r.message),
             ("deletedItem", JVal.jarr (r.deletedItem.map Item.toJson))]

/-- One registry operation, as reachable through the four mutating/reading
routes (a `get` request never changes state). -/
inductive Op where
  | create (name : Option String) (description : Option String)
  | update (id : Int) (name : Option String) (description : Option String)
  | del (id : Int)
  | get (id : Int)
deriving DecidableEq, Repr

/-- The state transition of one operation. -/
def applyOp (s : List Item) : Op → List Item
  | Op.create n d => (createItem s n d).2
  | Op.update i n d => (updateItem s i n d).2
  | Op.del i => (deleteItem s i).2
  | Op.get _ => s

/-- The registry state after running a sequence of operations from the seeded
initial store. -/
def runOps (ops : List Op) : List Item :=
  ops.foldl applyOp initialItems

/-- An operation whose request body cannot write an empty `name`: any `create`
(an empty create name is rejected), and any `update` whose `name` field is not
the literal empty string. -/
def opNameOk : Op → Bool
  | Op.update _ n _ => n != some ""
  | _ => true

/-- The ids handed out by a sequence of `POST /items` requests (pairs of the
`name` and optional `description` bodies), starting from state `s`. -/
def createdIds : List Item → List (String × Option String) → List Int
  | _, [] => []
  | s, (n, d) :: rest =>
    match createItem s (some n) d with
    | (Except.ok it, s2) => it.id :: createdIds s2 rest
    | (Except.error _, s2) => createdIds s2 rest

/-! ### Basic behaviour of the four handlers -/

theorem jsOrEmpty_eq_getD (d : Option String) : jsOrEmpty d = d.getD "" := by
  cases d with
  | none => rfl
  | some s =>
    by_cases h : s = "" <;> simp [jsOrEmpty, h]

theorem createItem_ok (s : List Item) (name : String) (d : Option String) (h : name ≠ "") :
    createItem s (some name) d =
      (Except.ok ⟨newId s, name, jsOrEmpty d⟩, s ++ [⟨newId s, name, jsOrEmpty d⟩]) := by
  simp [createItem, jsTruthy, h]

theorem createItem_invalid (s : List Item) (name d : Option String)
    (h : name = none ∨ name = some "") :
    createItem s name d = (Except.error nameRequiredResp, s) := by
  rcases h with h | h <;> subst h <;> simp [createItem, jsTruthy]

theorem getById_not_found (s : List Item) (id : Int) (h : ∀ x ∈ s, x.id ≠ id) :
    getById s id = Except.error notFoundResp := by
  have hf : s.find? (fun i => i.id == id) = none := by
    apply List.find?_eq_none.2
    intro x hx
    simpa using h x hx
  simp [getById, hf]

theorem getById_found (pre post : List Item) (it : Item) (id : Int)
    (hpre : ∀ x ∈ pre, x.id ≠ id) (hit : it.id = id) :
    getById (pre ++ it :: post) id = Except.ok it := by
  induction pre with
  | nil => simp [getById, List.find?_cons, hit]
  | cons a t ih =>
    have ha : (a.id == id) = false := by
      simpa using hpre a (by simp)
    have ht := ih fun x hx => hpre x (by simp [hx])
    simp only [getById, List.cons_append, List.find?_cons] at ht ⊢
    rw [ha]
    exact ht

theorem updateItem_not_found (s : List Item) (id : Int) (n d : Option String)
    (h : ∀ x ∈ s, x.id ≠ id) :
    updateItem s id n d = (Except.error notFoundResp, s) := by
  induction s with
  | nil => rfl
  | cons a t ih =>
    have ha : ¬ a.id = id := h a (by simp)
    have ht := ih fun x hx => h x (by simp [hx])
    simp [updateItem, ha, ht]

theorem updateItem_found (pre post : List Item) (it : Item) (id : Int) (n d : Option String)
    (hpre : ∀ x ∈ pre, x.id ≠ id) (hit : it.id = id) :
    updateItem (pre ++ it :: post) id n d =
      (Except.ok ⟨it.id, n.getD it.name, d.getD it.description⟩,
       pre ++ ⟨it.id, n.getD it.name, d.getD it.description⟩ :: post) := by
  induction pre with
  | nil => simp [updateItem, hit]
  | cons a t ih =>
    have ha : ¬ a.id = id := hpre a (by simp)
    have ht := ih fun x hx => hpre x (by simp [hx])
    simp [updateItem, ha, ht]

theorem deleteItem_not_found (s : List Item) (id : Int) (h : ∀ x ∈ s, x.id ≠ id) :
    deleteItem s id = (Except.error notFoundResp, s) := by
  induction s with
  | nil => rfl
  | cons a t ih =>
    have ha : ¬ a.id = id := h a (by simp)
    have ht := ih fun x hx => h x (by simp [hx])
    simp [deleteItem, ha, ht]

theorem deleteItem_found (pre post : List Item) (it : Item) (id : Int)
    (hpre : ∀ x ∈ pre, x.id ≠ id) (hit : it.id = id) :
    deleteItem (pre ++ it :: post) id =
      (Except.ok ⟨"Item deleted", [it]⟩, pre ++ post) := by
  induction pre with
  | nil => simp [deleteItem, hit]
  | cons a t ih =>
    have ha : ¬ a.id = id := hpre a (by simp)
    have ht := ih fun x hx => hpre x (by simp [hx])
    simp [deleteItem, ha, ht]

example : getById initialItems 1 = Except.ok ⟨1, "Item 1", "First item"⟩ := by decide
example : getById initialItems 3 = Except.error notFoundResp := by decide
example : (createItem initialItems (some "Item 3") none).1 =
    Except.ok ⟨3, "Item 3", ""⟩ := by decide
example : (deleteItem initialItems 1).1 =
    Except.ok ⟨"Item deleted", [⟨1, "Item 1", "First item"⟩]⟩ := by decide
example : runOps [Op.del 2, Op.create (some "X") none] =
    [⟨1, "Item 1", "First item"⟩, ⟨2, "X", ""⟩] := by decide
example : (updateItem initialItems 1 (some "") none).1 =
    Except.ok ⟨1, "", "First item"⟩ := by decide

/-! ### State-shape lemmas for the whole-trace invariants -/

theorem updateItem_map_id (s : List Item) (id : Int) (n d : Option String) :
    (updateItem s id n d).2.map Item.id = s.map Item.id := by
  induction s with
  | nil => rfl
  | cons a t ih =>
    by_cases h : a.id = id
    · simp [updateItem, h]
    · simp [updateItem, h, ih]

theorem deleteItem_sublist (s : List Item) (id : Int) :
    List.Sublist (deleteItem s id).2 s := by
  induction s with
  | nil => simp [deleteItem]
  | cons a t ih =>
    by_cases h : a.id = id
    · simp only [deleteItem, h]
      simp
    · simp only [deleteItem, h]
      simpa [h] using ih.cons₂ a

theorem newId_concat (s : List Item) (it : Item) : newId (s ++ [it]) = it.id + 1 := by
  simp [newId, List.getLast?_concat]

theorem createItem_chain (s : List Item) (n d : Option String)
    (h : List.Chain' (· < ·) (s.map Item.id)) :
    List.Chain' (· < ·) ((createItem s n d).2.map Item.id) := by
  match n with
  | none => simpa [createItem, jsTruthy] using h
  | some v =>
    by_cases hv : v = ""
    · simpa [createItem, jsTruthy, hv] using h
    · rw [createItem_ok s v d hv]
      simp only [List.map_append, List.map_cons, List.map_nil]
      rw [List.chain'_append]
      refine ⟨h, List.chain'_singleton _, ?_⟩
      intro x hx y hy
      simp at hy
      subst hy
      rw [List.getLast?_map] at hx
      cases hl : s.getLast? with
      | none => rw [hl] at hx; simp at hx
      | some l =>
        rw [hl] at hx
        simp at hx
        subst hx
        simp only [newId, hl]
        omega

theorem applyOp_chain (s : List Item) (op : Op)
    (h : List.Chain' (· < ·) (s.map Item.id)) :
    List.Chain' (· < ·) ((applyOp s op).map Item.id) := by
  cases op with
  | create n d => exact createItem_chain s n d h
  | update i n d => simpa [applyOp, updateItem_map_id] using h
  | del i => exact h.sublist ((deleteItem_sublist s i).map Item.id)
  | get i => exact h

theorem foldl_applyOp_chain (ops : List Op) : ∀ s : List Item,
    List.Chain' (· < ·) (s.map Item.id) →
    List.Chain' (· < ·) ((ops.foldl applyOp s).map Item.id) := by
  induction ops with
  | nil => intro s h; exact h
  | cons op rest ih =>
    intro s h
    exact ih (applyOp s op) (applyOp_chain s op h)

theorem initialItems_chain : List.Chain' (· < ·) (initialItems.map Item.id) := by
  show List.Chain' (· < ·) [(1 : Int), 2]
  exact List.chain'_pair.2 (by norm_num)

theorem runOps_chain (ops : List Op) :
    List.Chain' (· < ·) ((runOps ops).map Item.id) :=
  foldl_applyOp_chain ops initialItems initialItems_chain

theorem chain'_le_getLast : ∀ (l : List Int), List.Chain' (· < ·) l →
    ∀ x ∈ l, ∀ y ∈ l.getLast?, x ≤ y := by
  intro l
  induction l with
  | nil => intro _ x hx; simp at hx
  | cons a t ih =>
    intro h x hx y hy
    cases t with
    | nil =>
      simp at hx hy
      subst hx
      subst hy
      exact le_refl _
    | cons b t2 =>
      have hchain : List.Chain' (· < ·) (b :: t2) := (List.chain'_cons'.1 h).2
      have hab : a < b := (List.chain'_cons.1 h).1
      have hy2 : y ∈ (b :: t2).getLast? := by
        rwa [List.getLast?_cons_cons] at hy
      rcases List.mem_cons.1 hx with rfl | hx2
      · have hb : b ≤ y := ih hchain b (by simp) y hy2
        exact le_of_lt (lt_of_lt_of_le hab hb)
      · exact ih hchain x hx2 y hy2

/-! ### The non-empty-name invariant -/

theorem createItem_names (s : List Item) (n d : Option String)
    (h : ∀ x ∈ s, x.name ≠ "") : ∀ x ∈ (createItem s n d).2, x.name ≠ "" := by
  match n with
  | none => simpa [createItem, jsTruthy] using h
  | some v =>
    by_cases hv : v = ""
    · simpa [createItem, jsTruthy, hv] using h
    · rw [createItem_ok s v d hv]
      intro x hx
      rcases List.mem_append.1 hx with hx | hx
      · exact h x hx
      · simp at hx
        subst hx
        simpa using hv

theorem updateItem_names (s : List Item) (id : Int) (n d : Option String)
    (hn : n ≠ some "") (h : ∀ x ∈ s, x.name ≠ "") :
    ∀ x ∈ (updateItem s id n d).2, x.name ≠ "" := by
  induction s with
  | nil => simp [updateItem]
  | cons a t ih =>
    intro x hx
    by_cases hid : a.id = id
    · simp only [updateItem, hid] at hx
      simp at hx
      rcases hx with rfl | hx
      · cases n with
        | none => simpa using h a (by simp)
        | some v =>
          have hv : v ≠ "" := fun he => hn (by rw [he])
          simpa using hv
      · exact h x (by simp [hx])
    · simp only [updateItem, hid] at hx
      simp [hid] at hx
      rcases hx with rfl | hx
      · exact h x (by simp)
      · exact ih (fun z hz => h z (by simp [hz])) x hx

theorem applyOp_names (s : List Item) (op : Op) (hop : opNameOk op = true)
    (h : ∀ x ∈ s, x.name ≠ "") : ∀ x ∈ applyOp s op, x.name ≠ "" := by
  cases op with
  | create n d => exact createItem_names s n d h
  | update i n d =>
    have hn : n ≠ some "" := by simpa [opNameOk] using hop
    exact updateItem_names s i n d hn h
  | del i => exact fun x hx => h x ((deleteItem_sublist s i).subset hx)
  | get i => exact h

theorem foldl_applyOp_names : ∀ (ops : List Op) (s : List Item),
    (∀ op ∈ ops, opNameOk op = true) → (∀ x ∈ s, x.name ≠ "") →
    ∀ x ∈ ops.foldl applyOp s, x.name ≠ "" := by
  intro ops
  induction ops with
  | nil => intro s _ hs; simpa using hs
  | cons op rest ih =>
    intro s hops hs
    have hop : opNameOk op = true := hops op (by simp)
    exact ih (applyOp s op) (fun o ho => hops o (by simp [ho]))
      (applyOp_names s op hop hs)

/-! ### Ids handed out by consecutive creates -/

theorem createdIds_chain_lb : ∀ (reqs : List (String × Option String)) (s : List Item),
    (∀ p ∈ reqs, p.1 ≠ "") →
    List.Chain' (· < ·) (createdIds s reqs) ∧ ∀ x ∈ createdIds s reqs, newId s ≤ x := by
  intro reqs
  induction reqs with
  | nil =>
    intro s _
    exact ⟨by simp [createdIds], by simp [createdIds]⟩
  | cons p rest ih =>
    intro s hval
    obtain ⟨n, d⟩ := p
    have hn : n ≠ "" := hval (n, d) (by simp)
    have hunfold : createdIds s ((n, d) :: rest) =
        newId s :: createdIds (s ++ [⟨newId s, n, jsOrEmpty d⟩]) rest := by
      simp [createdIds, createItem_ok s n d hn]
    have hnew : newId (s ++ [⟨newId s, n, jsOrEmpty d⟩]) = newId s + 1 :=
      newId_concat s _
    have hrest := ih (s ++ [⟨newId s, n, jsOrEmpty d⟩]) (fun q hq => hval q (by simp [hq]))
    constructor
    · rw [hunfold]
      apply List.chain'_cons'.2
      refine ⟨?_, hrest.1⟩
      intro y hy
      have hmem : y ∈ createdIds (s ++ [⟨newId s, n, jsOrEmpty d⟩]) rest :=
        List.mem_of_mem_head? hy
      have hyy := hrest.2 y hmem
      rw [hnew] at hyy
      omega
    · rw [hunfold]
      intro x hx
      rcases List.mem_cons.1 hx with rfl | hx
      · exact le_refl _
      · have hxx := hrest.2 x hx
        rw [hnew] at hxx
        omega

theorem deleteItem_fst_of_getById : ∀ (s : List Item) (id : Int) (it : Item),
    getById s id = Except.ok it →
    (deleteItem s id).1 = Except.ok ⟨"Item deleted", [it]⟩ := by
  intro s
  induction s with
  | nil =>
    intro id it h
    simp [getById, List.find?_nil] at h
  | cons a t ih =>
    intro id it h
    by_cases hid : a.id = id
    · have hfind : getById (a :: t) id = Except.ok a := by
        simp [getById, List.find?_cons, hid]
      rw [hfind] at h
      obtain rfl := Except.ok.inj h
      simp [deleteItem, hid]
    · have ha : (a.id == id) = false := by simpa using hid
      have hh : getById t id = Except.ok it := by
        simp only [getById, List.find?_cons, ha] at h ⊢
        exact h
      simp [deleteItem, hid, ih id it hh]

/-! ### The claims -/

/-- C1, counterexample: id 2 is assigned in the seeded registry, the Item
carrying it is deleted, and a later `create` assigns id 2 again — so an id IS
reassigned to a later-created Item after the original was deleted. -/
theorem c1_counterexample :
    (⟨2, "Item 2", "Second item"⟩ : Item) ∈ initialItems ∧
    (deleteItem initialItems 2).1 =
      Except.ok ⟨"Item deleted", [⟨2, "Item 2", "Second item"⟩]⟩ ∧
    (createItem (runOps [Op.del 2]) (some "Item X") none).1 =
      Except.ok ⟨2, "Item X", ""⟩ :=
  ⟨by decide, by decide, by decide⟩

/-- C1, amended: in every state reachable from the seeded store by the four
operations, the ids of the coexisting Items are pairwise distinct; however a
deleted id can later be reassigned (see the counterexample). -/
theorem c1_ids_pairwise_distinct (ops : List Op) :
    List.Pairwise (· ≠ ·) ((runOps ops).map Item.id) :=
  (List.chain'_iff_pairwise.1 (runOps_chain ops)).imp (fun h => ne_of_lt h)

theorem c1_witness :
    List.Pairwise (· ≠ ·) ((runOps [Op.del 2, Op.create (some "Item X") none]).map Item.id) :=
  c1_ids_pairwise_distinct [Op.del 2, Op.create (some "Item X") none]

/-- C2, counterexample: at the seeded store, `delete(1)` answers with
`deletedItem` equal to the ARRAY `[item]` returned by `splice`, whose JSON
serialization is not the JSON of the removed Item itself. -/
theorem c2_counterexample :
    getById initialItems 1 = Except.ok ⟨1, "Item 1", "First item"⟩ ∧
    (deleteItem initialItems 1).1 =
      Except.ok ⟨"Item deleted", [⟨1, "Item 1", "First item"⟩]⟩ ∧
    DeleteResp.toJson ⟨"Item deleted", [⟨1, "Item 1", "First item"⟩]⟩ ≠
      JVal.jobj [("message", JVal.jstr "Item deleted"),
                 ("deletedItem", Item.toJson ⟨1, "Item 1", "First item"⟩)] := by
  refine ⟨by decide, by decide, ?_⟩
  intro hEq
  simp [DeleteResp.toJson, Item.toJson] at hEq

/-- C2, amended: for every state and every id present in the Registry,
`delete(id)` succeeds and its `deletedItem` is the one-element array containing
the removed Item, whose sole element equals the value of the Item just before
deletion (the first Item `getById` finds); its JSON form is a one-element
array. -/
theorem c2_delete_returns_wrapped (s : List Item) (id : Int) (it : Item)
    (h : getById s id = Except.ok it) :
    (deleteItem s id).1 = Except.ok ⟨"Item deleted", [it]⟩ ∧
    DeleteResp.toJson ⟨"Item deleted", [it]⟩ =
      JVal.jobj [("message", JVal.jstr "Item deleted"),
                 ("deletedItem", JVal.jarr [Item.toJson it])] :=
  ⟨deleteItem_fst_of_getById s id it h, rfl⟩

theorem c2_witness :
    getById initialItems 2 = Except.ok ⟨2, "Item 2", "Second item"⟩ ∧
    (deleteItem initialItems 2).1 =
      Except.ok ⟨"Item deleted", [⟨2, "Item 2", "Second item"⟩]⟩ :=
  ⟨by decide,
   (c2_delete_returns_wrapped initialItems 2 ⟨2, "Item 2", "Second item"⟩ (by decide)).1⟩

/-- C3, counterexample: `PUT /items/1` with body `{name: ""}` succeeds (JS `??`
lets the empty string through) and leaves a reachable registry state containing
an Item whose `name` is empty. -/
theorem c3_counterexample :
    (updateItem initialItems 1 (some "") none).1 =
      Except.ok ⟨1, "", "First item"⟩ ∧
    (⟨1, "", "First item"⟩ : Item) ∈ runOps [Op.update 1 (some "") none] ∧
    (⟨1, "", "First item"⟩ : Item).name = "" :=
  ⟨by decide, by decide, rfl⟩

/-- C3, amended: names stay non-empty in every reachable state as long as no
`update` supplies the literal empty string as `name`; `create` can never
introduce an empty name, but `update` with `name: ""` can. -/
theorem c3_names_nonempty (ops : List Op) (h : ∀ op ∈ ops, opNameOk op = true) :
    ∀ x ∈ runOps ops, x.name ≠ "" :=
  foldl_applyOp_names ops initialItems h (by decide)

theorem c3_witness :
    (∀ op ∈ [Op.create (some "Item 3") none, Op.update 1 none (some "upd")],
      opNameOk op = true) ∧
    (⟨3, "Item 3", ""⟩ : Item) ∈
      runOps [Op.create (some "Item 3") none, Op.update 1 none (some "upd")] ∧
    (⟨3, "Item 3", ""⟩ : Item).name ≠ "" :=
  ⟨by decide, by decide,
   c3_names_nonempty [Op.create (some "Item 3") none, Op.update 1 none (some "upd")]
     (by decide) ⟨3, "Item 3", ""⟩ (by decide)⟩

/-- C4: with a present non-empty `name`, `create` assigns id (id of the last item
id + 1) when the sequence is non-empty and 1 when it is empty, appends the new
Item with the given name and the description defaulted to `""`, and returns
exactly that Item. -/
theorem c4_create_ok (s : List Item) (name : String) (d : Option String) (h : name ≠ "") :
    createItem s (some name) d =
      (Except.ok ⟨newId s, name, d.getD ""⟩, s ++ [⟨newId s, name, d.getD ""⟩]) ∧
    (∀ l ∈ s.getLast?, newId s = l.id + 1) ∧ (s = [] → newId s = 1) := by
  refine ⟨?_, ?_, ?_⟩
  · rw [createItem_ok s name d h, jsOrEmpty_eq_getD]
  · intro l hl
    rw [Option.mem_def] at hl
    simp [newId, hl]
  · intro h0
    subst h0
    rfl

theorem c4_witness :
    ("Item 3" : String) ≠ "" ∧
    createItem initialItems (some "Item 3") none =
      (Except.ok ⟨3, "Item 3", ""⟩,
       initialItems ++ [⟨3, "Item 3", ""⟩]) :=
  ⟨by decide, (c4_create_ok initialItems "Item 3" none (by decide)).1⟩

/-- C5: `create` with an absent `name` or with `name: ""` answers 400 with
error "Name is required" and leaves the store unchanged. -/
theorem c5_create_invalid (s : List Item) (name d : Option String)
    (h : name = none ∨ name = some "") :
    createItem s name d = (Except.error nameRequiredResp, s) ∧
    nameRequiredResp.status = 400 ∧ nameRequiredResp.error = "Name is required" :=
  ⟨createItem_invalid s name d h, rfl, rfl⟩

theorem c5_witness :
    ((none : Option String) = none ∨ (none : Option String) = some "") ∧
    createItem initialItems none (some "desc") =
      (Except.error nameRequiredResp, initialItems) :=
  ⟨Or.inl rfl, (c5_create_invalid initialItems none (some "desc") (Or.inl rfl)).1⟩

/-- C6: on an id matching no Item, `getById`, `update` and `delete` all answer
404 with error "Item not found" and leave the store untouched. -/
theorem c6_not_found (s : List Item) (id : Int) (n d : Option String)
    (h : ∀ x ∈ s, x.id ≠ id) :
    getById s id = Except.error notFoundResp ∧
    updateItem s id n d = (Except.error notFoundResp, s) ∧
    deleteItem s id = (Except.error notFoundResp, s) ∧
    notFoundResp.status = 404 ∧ notFoundResp.error = "Item not found" :=
  ⟨getById_not_found s id h, updateItem_not_found s id n d h,
   deleteItem_not_found s id h, rfl, rfl⟩

theorem c6_witness :
    (∀ x ∈ initialItems, x.id ≠ (3 : Int)) ∧
    getById initialItems 3 = Except.error notFoundResp ∧
    updateItem initialItems 3 (some "n") none = (Except.error notFoundResp, initialItems) ∧
    deleteItem initialItems 3 = (Except.error notFoundResp, initialItems) := by
  have h := c6_not_found initialItems 3 (some "n") none (by decide)
  exact ⟨by decide, h.1, h.2.1, h.2.2.1⟩

/-- C7: on the first Item whose id matches (ids are unique in reachable
states), `update` keeps the id, replaces exactly the supplied (non-null)
fields — an unsupplied `name` or `description` retains its prior value — leaves
every other Item untouched, and returns the updated Item. -/
theorem c7_update_frame (pre post : List Item) (it : Item) (id : Int) (n d : Option String)
    (hpre : ∀ x ∈ pre, x.id ≠ id) (hit : it.id = id) :
    (updateItem (pre ++ it :: post) id n d).1 =
      Except.ok ⟨it.id, n.getD it.name, d.getD it.description⟩ ∧
    (updateItem (pre ++ it :: post) id n d).2 =
      pre ++ ⟨it.id, n.getD it.name, d.getD it.description⟩ :: post := by
  rw [updateItem_found pre post it id n d hpre hit]
  exact ⟨rfl, rfl⟩

theorem c7_witness :
    (updateItem initialItems 2 none (some "Updated")).1 =
      Except.ok ⟨2, "Item 2", "Updated"⟩ ∧
    (updateItem initialItems 2 none (some "Updated")).2 =
      [⟨1, "Item 1", "First item"⟩] ++ ⟨2, "Item 2", "Updated"⟩ :: [] :=
  c7_update_frame [⟨1, "Item 1", "First item"⟩] [] ⟨2, "Item 2", "Second item"⟩ 2
    none (some "Updated") (by decide) (by decide)

/-- C8: any run of `create` calls with valid (non-empty) names, from any
starting state, hands out pairwise distinct ids, non-decreasing (indeed
strictly increasing) in creation order. -/
theorem c8_created_ids (s : List Item) (reqs : List (String × Option String))
    (h : ∀ p ∈ reqs, p.1 ≠ "") :
    List.Pairwise (· ≠ ·) (createdIds s reqs) ∧
    List.Chain' (· ≤ ·) (createdIds s reqs) := by
  have hc := (createdIds_chain_lb reqs s h).1
  constructor
  · exact (List.chain'_iff_pairwise.1 hc).imp (fun hab => ne_of_lt hab)
  · exact hc.imp (fun a b hab => le_of_lt hab)

theorem c8_witness :
    (∀ p ∈ [("Item 3", (none : Option String)), ("Item 4", some "d")], p.1 ≠ "") ∧
    createdIds initialItems [("Item 3", none), ("Item 4", some "d")] = [3, 4] ∧
    List.Pairwise (· ≠ ·) (createdIds initialItems [("Item 3", none), ("Item 4", some "d")]) :=
  ⟨by decide, by decide,
   (c8_created_ids initialItems [("Item 3", none), ("Item 4", some "d")] (by decide)).1⟩

/-- C9: deleting a present id (unique in the state, as in every reachable
state) removes exactly that one Item: the length drops by one, the remaining
Items keep their values, ids and relative order, and `getById` on the deleted
id then answers 404. -/
theorem c9_delete_frame (pre post : List Item) (it : Item) (id : Int)
    (hpre : ∀ x ∈ pre, x.id ≠ id) (hpost : ∀ x ∈ post, x.id ≠ id) (hit : it.id = id) :
    deleteItem (pre ++ it :: post) id =
      (Except.ok ⟨"Item deleted", [it]⟩, pre ++ post) ∧
    (pre ++ post).length + 1 = (pre ++ it :: post).length ∧
    getById (pre ++ post) id = Except.error notFoundResp := by
  refine ⟨deleteItem_found pre post it id hpre hit, ?_, ?_⟩
  · simp only [List.length_append, List.length_cons]
    omega
  · apply getById_not_found
    intro x hx
    rcases List.mem_append.1 hx with hx | hx
    · exact hpre x hx
    · exact hpost x hx

theorem c9_witness :
    deleteItem initialItems 1 =
      (Except.ok ⟨"Item deleted", [⟨1, "Item 1", "First item"⟩]⟩,
       [] ++ [⟨2, "Item 2", "Second item"⟩]) ∧
    getById ([] ++ [(⟨2, "Item 2", "Second item"⟩ : Item)]) 1 =
      Except.error notFoundResp := by
  have h := c9_delete_frame [] [⟨2, "Item 2", "Second item"⟩]
    ⟨1, "Item 1", "First item"⟩ 1 (by decide) (by decide) (by decide)
  exact ⟨h.1, h.2.2⟩

/-- C10: in every state reachable from the seeded store, the ids are strictly
increasing along the sequence, hence pairwise distinct, and every id is at
most the id of the last Item (the last Item carries the current maximum). -/
theorem c10_reachable_strict (ops : List Op) :
    List.Chain' (· < ·) ((runOps ops).map Item.id) ∧
    List.Pairwise (· ≠ ·) ((runOps ops).map Item.id) ∧
    ∀ x ∈ (runOps ops).map Item.id,
      ∀ y ∈ ((runOps ops).map Item.id).getLast?, x ≤ y := by
  refine ⟨runOps_chain ops, ?_, ?_⟩
  · exact (List.chain'_iff_pairwise.1 (runOps_chain ops)).imp (fun h => ne_of_lt h)
  · exact chain'_le_getLast _ (runOps_chain ops)

theorem c10_witness :
    (1 : Int) ∈ (runOps [Op.create (some "Item 3") none]).map Item.id ∧
    (3 : Int) ∈ ((runOps [Op.create (some "Item 3") none]).map Item.id).getLast? ∧
    (1 : Int) ≤ 3 := by
  refine ⟨by decide, ?_, ?_⟩
  · rw [Option.mem_def]
    decide
  · exact (c10_reachable_strict [Op.create (some "Item 3") none]).2.2 1 (by decide) 3
      (by rw [Option.mem_def]; decide)
